import Mathlib

/-!
Shallow embedding of the rs-basn1 DER codec (header codec, integer-limb
codecs, Reader, Writer) over `List Nat` byte buffers, together with proofs
settling the specification claims.

Conventions of the embedding:
* Rust byte slices become `List Nat` (each entry is a byte value; the Rust
  types guarantee `< 256`, the embedding states that bound only where a
  proof needs it).
* machine integers become `Nat` with explicit truncation `% 2 ^ w` at the
  places the Rust code can wrap; `u32::checked_shl`/`checked_add` are
  modelled exactly: `checked_shl` fails only when the shift amount reaches
  the bit width (value bits shifted out are silently discarded, as in Rust),
  `checked_add` fails exactly on arithmetic overflow.
* fallible Rust code (`Result`) becomes `Except`; a Rust panic
  (`unwrap`, failed `assert!`, out-of-bounds slice index) is modelled by a
  dedicated `panic` constructor (reader) or by `Option.none` (writer),
  kept strictly separate from returned errors.
-/

deriving instance DecidableEq for Except

namespace Basn1

/-- Class for encoding (src/header/identifier.rs). -/
inductive Class where
| Universal
| Application
| Context
| Private
deriving DecidableEq, Repr

/-- Primitive/Constructed flag (src/header/identifier.rs). -/
inductive PC where
| Constructed
| Primitive
deriving DecidableEq, Repr

/-- Tag type of the first identifier byte: `Short(u8 < 0x1f)` or the
long-form marker (src/header/identifier.rs). -/
inductive TagType where
| Short (v : Nat)
| Long
deriving DecidableEq, Repr

/-- Encoded tag: short or long form (src/header/identifier.rs `TagEncoded`). -/
inductive TagEncoded where
| Short (v : Nat)
| Long (v : Nat)
deriving DecidableEq, Repr

/-- Rust `TagEncoded::value` (src/header/identifier.rs). -/
def TagEncoded.value : TagEncoded → Nat
| .Short u => u
| .Long l => l

/-- Rust `TagEncoded::new_smallest` (src/header/identifier.rs): the source tests
`v < 0x80`, not `v < 0x1f`. -/
def TagEncoded.new_smallest (v : Nat) : TagEncoded :=
if v < 0x80 then TagEncoded.Short v else TagEncoded.Long v

/-- ASN.1 identifier: class, primitive/constructed flag and tag
(src/header/identifier.rs `Identifier`; the Rust field `class` is renamed
`cls` because `class` is a Lean keyword). -/
structure Identifier where
cls : Class
pc : PC
tag : TagEncoded
deriving DecidableEq, Repr

/-- Identifier decoding errors (src/header/identifier.rs `DecodeError`). -/
inductive DecodeError where
| EmptyHeader
| TagEncodingIncomplete
| TagEncodingOverflow
| TagEncodingNonCanonical
deriving DecidableEq, Repr

/-- Model of `u32::checked_shl` generalized over the bit width: it returns
`none` exactly when the shift amount reaches the width; otherwise the value
is shifted with the overflowing bits silently discarded (Rust `<<` on an
unsigned integer truncates the value, only the shift amount is checked). -/
def checked_shl (width v shift : Nat) : Option Nat :=
if width ≤ shift then none else some ((v <<< shift) % 2 ^ width)

/-- Model of `checked_add` generalized over the bit width: fails exactly on
arithmetic overflow of the `width`-bit result. -/
def checked_add (width a b : Nat) : Option Nat :=
if a + b < 2 ^ width then some (a + b) else none

/-- Decode the first identifier byte `CC C TTTTT`
(src/header/identifier.rs `decode_first_byte`); the Rust `unreachable!()`
arm cannot trigger since a `u8` shifted right by 6 is at most 3, so the
value 3 is mapped to `Private` directly. -/
def decode_first_byte (hdr : Nat) : Class × PC × TagType :=
let cls :=
  if hdr >>> 6 = 0 then Class.Universal
  else if hdr >>> 6 = 1 then Class.Application
  else if hdr >>> 6 = 2 then Class.Context
  else Class.Private
let constructed := if hdr &&& 0x20 ≠ 0 then PC.Constructed else PC.Primitive
let tag := hdr &&& 0x1f
let tagtype := if tag = 0x1f then TagType.Long else TagType.Short tag
(cls, constructed, tagtype)

/-- Encode the first identifier byte (src/header/identifier.rs
`encode_first_byte`). -/
def encode_first_byte (cls : Class) (constructed : PC) (tagtype : TagType) : Nat :=
let e1 :=
  match cls with
  | Class.Universal => 0
  | Class.Application => 1
  | Class.Context => 2
  | Class.Private => 3
let e2 := if constructed = PC.Constructed then 0x20 else 0
let e3 :=
  match tagtype with
  | TagType.Short v => v
  | TagType.Long => 0x1f
e1 <<< 6 ||| e2 ||| e3

/-- Long-form tag accumulation loop (src/header/identifier.rs
`get_taglong`): processes the bytes after the first identifier byte and
returns the accumulated `u32` tag together with the number of bytes it
consumed (the Rust code tracks the same count through `*index`).
`acc` and `first` are the Rust local variables `acc` and `first_byte`. -/
def get_taglong_loop : List Nat → Nat → Bool → Except DecodeError (Nat × Nat)
| [], _, _ => .error DecodeError.TagEncodingIncomplete
| byte :: rest, acc, first =>
  if byte &&& 0x80 ≠ 0 then
    let cbyte := byte &&& 0x7f
    if first && (cbyte == 0) then .error DecodeError.TagEncodingNonCanonical
    else
      match checked_shl 32 acc 7 with
      | none => .error DecodeError.TagEncodingOverflow
      | some s =>
        match checked_add 32 s cbyte with
        | none => .error DecodeError.TagEncodingOverflow
        | some acc2 =>
          match get_taglong_loop rest acc2 false with
          | .error e => .error e
          | .ok (v, n) => .ok (v, n + 1)
  else
    match checked_shl 32 acc 7 with
    | none => .error DecodeError.TagEncodingOverflow
    | some s =>
      match checked_add 32 s byte with
      | none => .error DecodeError.TagEncodingOverflow
      | some acc2 => .ok (acc2, 1)

/-- Rust `get_taglong` entry point: `acc = 0`, `first_byte = true`
(src/header/identifier.rs). -/
def get_taglong (slice : List Nat) : Except DecodeError (Nat × Nat) :=
get_taglong_loop slice 0 true

/-- Fuel-based unfolding of the `size_7bit` loop (src/header/identifier.rs):
`while v >= 0x80 { v >>= 7; nb_bytes += 1 }`. The fuel only bounds the
number of iterations so that the recursion is structural (and hence reduces
inside the kernel); `v` iterations always suffice because each step divides
`v` by 128. -/
def size_7bit_fuel : Nat → Nat → Nat
| 0, _ => 1
| fuel + 1, v => if v < 0x80 then 1 else 1 + size_7bit_fuel fuel (v >>> 7)

/-- Number of 7-bit groups needed for a tag value (src/header/identifier.rs
`size_7bit`). -/
def size_7bit (v : Nat) : Nat :=
size_7bit_fuel v v

/-- The 7-bit groups written by the tail loop of `Identifier::encode`
(src/header/identifier.rs lines 141-153): group `i` carries bits
`7*(nb_bytes-1-i)` and up, and every group except the last sets the
continuation bit. -/
def encode_tag_bytes (b nb_bytes : Nat) : List Nat :=
(List.range nb_bytes).map (fun i =>
  let shifter := 7 * (nb_bytes - 1 - i)
  let v := (b >>> shifter) &&& 0x7f
  if i = nb_bytes - 1 then v else v ||| 0x80)

/-- Rust `Identifier::decode` (src/header/identifier.rs): returns the identifier
and the number of bytes consumed. -/
def Identifier.decode (slice : List Nat) : Except DecodeError (Identifier × Nat) :=
match slice with
| [] => .error DecodeError.EmptyHeader
| b :: rest =>
  let (cls, pc, tagtype) := decode_first_byte b
  match tagtype with
  | TagType.Short tag => .ok (⟨cls, pc, TagEncoded.Short tag⟩, 1)
  | TagType.Long =>
    match get_taglong rest with
    | .error e => .error e
    | .ok (v, consumed) => .ok (⟨cls, pc, TagEncoded.Long v⟩, 1 + consumed)

/-- Rust `Identifier::encode` (src/header/identifier.rs): the bytes written into
the output buffer, in order; the Rust return value is their count. -/
def Identifier.encode (ident : Identifier) : List Nat :=
let tagtype :=
  match ident.tag with
  | TagEncoded.Short v => TagType.Short v
  | TagEncoded.Long _ => TagType.Long
let x := encode_first_byte ident.cls ident.pc tagtype
match ident.tag with
| TagEncoded.Short _ => [x]
| TagEncoded.Long b => x :: encode_tag_bytes b (size_7bit b)

/-- Rust `Identifier::size_bytes` (src/header/identifier.rs). -/
def Identifier.size_bytes (ident : Identifier) : Nat :=
match ident.tag with
| TagEncoded.Long v => 1 + size_7bit v
| TagEncoded.Short _ => 1

/-- Length decoding errors (src/header/length.rs `LengthDecodeError`). -/
inductive LengthDecodeError where
| EncodingIncomplete
| EncodingOverflow
deriving DecidableEq, Repr

/-- ASN.1 header length (src/header/length.rs `Length`). -/
inductive Length where
| Short (v : Nat)
| Long (nb_bytes : Nat) (value : Nat)
| Indefinite
deriving DecidableEq, Repr

/-- Rust `Length::value` (src/header/length.rs). -/
def Length.value : Length → Option Nat
| .Short sz => some sz
| .Long _ value => some value
| .Indefinite => none

/-- Number of binary digits of a `Nat` (fuel-based so that it reduces in
the kernel; `v` iterations always suffice because each step halves `v`).
For `v < 2^64` the Rust `usize::leading_zeros(v)` is `64 - bit_length v`. -/
def bit_length_fuel : Nat → Nat → Nat
| 0, _ => 0
| fuel + 1, v => if v = 0 then 0 else 1 + bit_length_fuel fuel (v / 2)

/-- Model of `usize::leading_zeros` with `usize` 64-bit
(src/header/length.rs `new_smallest` computes `v.leading_zeros()`). -/
def usize_leading_zeros (v : Nat) : Nat :=
64 - bit_length_fuel v v

/-- Rust `Length::new_smallest` (src/header/length.rs). `usize` is modelled as
64-bit (`core::mem::size_of::<usize>() = 8`) and the stored `value` is the
`u32` truncation `v % 2^32` of the Rust `v as u32` cast. -/
def Length.new_smallest (v : Nat) : Length :=
if v < 0x80 then Length.Short v
else
  let bits_clear := usize_leading_zeros v
  let nb_bytes := 8 - bits_clear / 8
  Length.Long nb_bytes (v % 2 ^ 32)

/-- Rust `Length::size_bytes` (src/header/length.rs). -/
def Length.size_bytes : Length → Nat
| .Indefinite => 1
| .Short _ => 1
| .Long nb_bytes _ => 1 + nb_bytes

/-- The accumulation loop of `get_length` (src/header/length.rs lines
86-94) over the long-form value bytes, with `u32` checked arithmetic. -/
def length_acc_loop : List Nat → Nat → Option Nat
| [], acc => some acc
| b :: rest, acc =>
  match checked_shl 32 acc 8 with
  | none => none
  | some s =>
    match checked_add 32 s b with
    | none => none
    | some acc2 => length_acc_loop rest acc2

/-- Rust `get_length` (src/header/length.rs): decodes a length and returns the
number of bytes consumed; a `none` from the accumulation loop is the Rust
`?` propagation of `EncodingOverflow`. -/
def get_length (slice : List Nat) : Except LengthDecodeError (Length × Nat) :=
match slice with
| [] => .error LengthDecodeError.EncodingIncomplete
| f :: rest =>
  if f = 0x80 then .ok (Length.Indefinite, 1)
  else if f &&& 0x80 ≠ 0 then
    let nb_bytes := f &&& 0x7f
    let total_size := 1 + nb_bytes
    if slice.length < total_size then .error LengthDecodeError.EncodingIncomplete
    else
      match length_acc_loop (rest.take nb_bytes) 0 with
      | none => .error LengthDecodeError.EncodingOverflow
      | some acc => .ok (Length.Long nb_bytes acc, total_size)
  else .ok (Length.Short f, 1)

/-- Rust `Length::decode` (src/header/length.rs). -/
def Length.decode (buf : List Nat) : Except LengthDecodeError (Length × Nat) :=
get_length buf

/-- The big-endian value bytes written by the two `while` loops of
`put_length` for the long form (src/header/length.rs lines 121-132):
`nb_bytes - 4` zero bytes, then the trailing `min nb_bytes 4` bytes of
`value.to_be_bytes()`. -/
def length_value_bytes (nb_bytes value : Nat) : List Nat :=
List.replicate (nb_bytes - 4) 0 ++
  (List.range (min nb_bytes 4)).map (fun i => (value >>> (8 * (min nb_bytes 4 - 1 - i))) &&& 0xff)

/-- Rust `put_length` (src/header/length.rs): the bytes written, or `none` when
one of the Rust `assert!`s fires (a panic). -/
def put_length : Length → Option (List Nat)
| .Indefinite => some [0x80]
| .Short v => if v < 0x80 then some [v] else none
| .Long nb_bytes value =>
  if nb_bytes ≠ 0 ∧ nb_bytes < 0x80 then
    some ((0x80 ||| nb_bytes) :: length_value_bytes nb_bytes value)
  else none

/-- Continuation scan of `IntegerContBit7::parse_from_slice`
(src/intenc.rs lines 49-55): the Rust `while (slice[i] & 0x80) != 0` loop
finds the first byte without the continuation bit; it errors (`i` reaches
`slice.len()`) exactly when every byte has the bit set. Returns that
byte's index. -/
def cont_scan : List Nat → Option Nat
| [] => none
| b :: rest =>
  if b &&& 0x80 ≠ 0 then (cont_scan rest).map (· + 1) else some 0

/-- Rust `IntegerContBit7::parse_from_slice` (src/intenc.rs): returns the
validated limb sub-slice (the typed view's underlying bytes) and the number
of bytes consumed. -/
def IntegerContBit7.parse_from_slice (slice : List Nat) : Except Unit (List Nat × Nat) :=
match slice with
| [] => .error ()
| b :: _ =>
  if b = 0x80 then .error ()
  else
    match cont_scan slice with
    | none => .error ()
    | some i => .ok (slice.take (1 + i), 1 + i)

/-- The `to_primitive7!` macro body (src/intenc.rs lines 12-31),
parameterized by the bit width of the target type (the macro is
instantiated at u8/u16/u32/u64/u128): left-to-right accumulation with
`checked_shl(7)` and `checked_add`. The `[]` case stands for the panic of
`self.0[0]` on an empty slice, which validated views never are. -/
def to_primitive7 (width : Nat) (limbs : List Nat) : Option Nat :=
match limbs with
| [] => none
| b :: rest =>
  rest.foldlM (fun acc c => do
    let s ← checked_shl width acc 7
    checked_add width s (c &&& 0x7f)) (b &&& 0x7f)

/-- Rust `Integer8Bit::from_slice` (src/intenc.rs): rejects an empty slice and a
leading zero byte, otherwise returns the validated slice unchanged. -/
def Integer8Bit.from_slice (slice : List Nat) : Except Unit (List Nat) :=
match slice with
| [] => .error ()
| b :: _ => if b = 0 then .error () else .ok slice

/-- The `to_primitive8!` macro body (src/intenc.rs lines 83-100),
parameterized by the bit width of the target type: big-endian byte
accumulation with `checked_shl(8)` and `checked_add`. -/
def to_primitive8 (width : Nat) (limbs : List Nat) : Option Nat :=
match limbs with
| [] => none
| b :: rest =>
  rest.foldlM (fun acc c => do
    let s ← checked_shl width acc 8
    checked_add width s c) b

/-- Rust `BitString::bits` (src/objects.rs): total bit count of a validated BIT
STRING payload (first byte = unused bit count). -/
def BitString.bits (s : List Nat) : Nat :=
(s.length - 1) * 8 - s.headD 0

/-- Universal tag constants (src/header/constants.rs). -/
def TAG_BOOLEAN : Nat := 0x1

/-- Universal tag INTEGER (src/header/constants.rs). -/
def TAG_INTEGER : Nat := 0x2

/-- Universal tag BIT STRING (src/header/constants.rs). -/
def TAG_BIT_STRING : Nat := 0x3

/-- Universal tag OCTET STRING (src/header/constants.rs). -/
def TAG_OCTET_STRING : Nat := 0x4

/-- Universal tag NULL (src/header/constants.rs). -/
def TAG_NULL : Nat := 0x5

/-- Universal tag OBJECT IDENTIFIER (src/header/constants.rs). -/
def TAG_OID : Nat := 0x6

/-- Universal tag ENUMERATED (src/header/constants.rs). -/
def TAG_ENUMERATED : Nat := 0xa

/-- Universal tag UTF8String (src/header/constants.rs). -/
def TAG_UTF8_STRING : Nat := 0xc

/-- Universal tag SEQUENCE (src/header/constants.rs). -/
def TAG_SEQUENCE : Nat := 0x10

/-- Universal tag SET (src/header/constants.rs). -/
def TAG_SET : Nat := 0x11

/-- Reader errors (src/der/reader.rs `Error`). -/
inductive ReaderError where
| ExpectedCType (expected got : PC)
| ExpectedTag (expected got : Nat)
| ExpectedClass (expected got : Class)
| IndefiniteLengthDER
| BoolLengthInvalid (n : Nat)
| BoolEncodingInvalid (v : Nat)
| BitStringEncodingEmpty
| BitStringEncodingInvalidStart
| BitStringEncodingInvalidEnd
| IntegerNotCanonical
| Utf8Invalid
| NullEncodingInvalid
| OIDInvalid
| ReaderNotTerminated (index len : Nat)
deriving DecidableEq, Repr

/-- Result of a reader operation: `panic` models a Rust panic (the
`unwrap()` calls in `Reader::next` and the unchecked slice index in
`Reader::subslice`), `err` a returned `Err`, `ok` a returned `Ok`. -/
inductive RResult (α : Type) where
| panic : RResult α
| err : ReaderError → RResult α
| ok : α → RResult α
deriving DecidableEq, Repr

/-- Monadic sequencing for reader results: panics and errors propagate. -/
def RResult.bind {α β : Type} (x : RResult α) (f : α → RResult β) : RResult β :=
match x with
| .panic => .panic
| .err e => .err e
| .ok a => f a

/-- DER reader state (src/der/reader.rs `Reader`): the cursor and the
borrowed byte slice. -/
structure Reader where
index : Nat
slice : List Nat
deriving DecidableEq, Repr

/-- Rust `Reader::new` (src/der/reader.rs). -/
def Reader.new (slice : List Nat) : Reader :=
⟨0, slice⟩

/-- The free function `assume` (src/der/reader.rs lines 32-52): checks
class, then primitive/constructed flag, then tag number. -/
def assume (header : Identifier) (pc : PC) (tag : Nat) : Except ReaderError Unit :=
if header.cls ≠ Class.Universal then
  .error (ReaderError.ExpectedClass Class.Universal header.cls)
else if header.pc ≠ pc then
  .error (ReaderError.ExpectedCType pc header.pc)
else if header.tag.value ≠ tag then
  .error (ReaderError.ExpectedTag tag header.tag.value)
else .ok ()

/-- Rust `Reader::next` (src/der/reader.rs lines 79-85): decodes an Identifier
then a Length at the cursor. Both decode results go through `.unwrap()`, so
a decode error is a panic, not a returned error. -/
def Reader.next (r : Reader) : RResult ((Identifier × Length) × Reader) :=
match Identifier.decode (r.slice.drop r.index) with
| .error _ => .panic
| .ok (hdr, sz) =>
  let i1 := r.index + sz
  match Length.decode (r.slice.drop i1) with
  | .error _ => .panic
  | .ok (len, sz2) => .ok ((hdr, len), ⟨i1 + sz2, r.slice⟩)

/-- Rust `Reader::next_assume` (src/der/reader.rs lines 87-91). -/
def Reader.next_assume (r : Reader) (pc : PC) (tag : Nat) : RResult (Length × Reader) :=
RResult.bind r.next (fun x =>
  match assume x.1.1 pc tag with
  | .error e => .err e
  | .ok _ => .ok (x.1.2, x.2))

/-- Rust `Reader::subslice` (src/der/reader.rs lines 93-102): `Indefinite` is a
returned error; the payload is carved with the unchecked index expression
`self.slice[self.index..self.index + len]`, which panics when fewer bytes
remain than the declared length. -/
def Reader.subslice (r : Reader) (length : Length) : RResult (List Nat × Reader) :=
match length with
| Length.Indefinite => .err ReaderError.IndefiniteLengthDER
| Length.Short v =>
  if r.index + v ≤ r.slice.length then
    .ok ((r.slice.drop r.index).take v, ⟨r.index + v, r.slice⟩)
  else .panic
| Length.Long _ value =>
  if r.index + value ≤ r.slice.length then
    .ok ((r.slice.drop r.index).take value, ⟨r.index + value, r.slice⟩)
  else .panic

/-- Rust `Reader::bool` (src/der/reader.rs lines 124-136). -/
def Reader.bool (r : Reader) : RResult (Bool × Reader) :=
RResult.bind (r.next_assume PC.Primitive TAG_BOOLEAN) (fun x =>
  RResult.bind (x.2.subslice x.1) (fun y =>
    match y.1 with
    | [0] => .ok (false, y.2)
    | [0xff] => .ok (true, y.2)
    | [v] => .err (ReaderError.BoolEncodingInvalid v)
    | l => .err (ReaderError.BoolLengthInvalid l.length)))

/-- Rust `Reader::integer` (src/der/reader.rs lines 139-144): the returned value
is the validated `Integer` view's byte slice. -/
def Reader.integer (r : Reader) : RResult (List Nat × Reader) :=
RResult.bind (r.next_assume PC.Primitive TAG_INTEGER) (fun x =>
  RResult.bind (x.2.subslice x.1) (fun y =>
    match Integer8Bit.from_slice y.1 with
    | .error _ => .err ReaderError.IntegerNotCanonical
    | .ok i => .ok (i, y.2)))

/-- Rust `Reader::enumerated` (src/der/reader.rs lines 147-152). -/
def Reader.enumerated (r : Reader) : RResult (List Nat × Reader) :=
RResult.bind (r.next_assume PC.Primitive TAG_ENUMERATED) (fun x =>
  RResult.bind (x.2.subslice x.1) (fun y =>
    match Integer8Bit.from_slice y.1 with
    | .error _ => .err ReaderError.IntegerNotCanonical
    | .ok i => .ok (i, y.2)))

/-- Rust `Reader::bitstring` (src/der/reader.rs lines 155-176): the returned
value is the validated `BitString` view's byte slice (unused-bit count
byte included). -/
def Reader.bitstring (r : Reader) : RResult (List Nat × Reader) :=
RResult.bind (r.next_assume PC.Primitive TAG_BIT_STRING) (fun x =>
  RResult.bind (x.2.subslice x.1) (fun y =>
    let sub := y.1
    if sub.isEmpty then .err ReaderError.BitStringEncodingEmpty
    else
      let bit_unused := sub.headD 0
      if bit_unused > 7 then .err ReaderError.BitStringEncodingInvalidStart
      else if bit_unused > 0 then
        if sub.length = 1 then .err ReaderError.BitStringEncodingInvalidStart
        else
          let last := sub.getD (sub.length - 1) 0
          let mask := (1 <<< bit_unused) - 1
          if last &&& mask ≠ 0 then .err ReaderError.BitStringEncodingInvalidEnd
          else .ok (sub, y.2)
      else .ok (sub, y.2)))

/-- Rust `Reader::octetstring` (src/der/reader.rs lines 179-183). -/
def Reader.octetstring (r : Reader) : RResult (List Nat × Reader) :=
RResult.bind (r.next_assume PC.Primitive TAG_OCTET_STRING) (fun x =>
  x.2.subslice x.1)

/-- UTF-8 validity of a byte list, per RFC 3629 as implemented by
`core::str::from_utf8` (rejecting overlong forms, surrogates and values
beyond U+10FFFF). -/
def utf8_valid : List Nat → Bool
| [] => true
| b :: rest =>
  if b < 0x80 then utf8_valid rest
  else if 0xc2 ≤ b ∧ b ≤ 0xdf then
    match rest with
    | c1 :: r => 0x80 ≤ c1 && c1 ≤ 0xbf && utf8_valid r
    | _ => false
  else if b = 0xe0 then
    match rest with
    | c1 :: c2 :: r => 0xa0 ≤ c1 && c1 ≤ 0xbf && (0x80 ≤ c2 && c2 ≤ 0xbf) && utf8_valid r
    | _ => false
  else if 0xe1 ≤ b ∧ b ≤ 0xec then
    match rest with
    | c1 :: c2 :: r => 0x80 ≤ c1 && c1 ≤ 0xbf && (0x80 ≤ c2 && c2 ≤ 0xbf) && utf8_valid r
    | _ => false
  else if b = 0xed then
    match rest with
    | c1 :: c2 :: r => 0x80 ≤ c1 && c1 ≤ 0x9f && (0x80 ≤ c2 && c2 ≤ 0xbf) && utf8_valid r
    | _ => false
  else if 0xee ≤ b ∧ b ≤ 0xef then
    match rest with
    | c1 :: c2 :: r => 0x80 ≤ c1 && c1 ≤ 0xbf && (0x80 ≤ c2 && c2 ≤ 0xbf) && utf8_valid r
    | _ => false
  else if b = 0xf0 then
    match rest with
    | c1 :: c2 :: c3 :: r =>
      0x90 ≤ c1 && c1 ≤ 0xbf && (0x80 ≤ c2 && c2 ≤ 0xbf) && (0x80 ≤ c3 && c3 ≤ 0xbf) && utf8_valid r
    | _ => false
  else if 0xf1 ≤ b ∧ b ≤ 0xf3 then
    match rest with
    | c1 :: c2 :: c3 :: r =>
      0x80 ≤ c1 && c1 ≤ 0xbf && (0x80 ≤ c2 && c2 ≤ 0xbf) && (0x80 ≤ c3 && c3 ≤ 0xbf) && utf8_valid r
    | _ => false
  else if b = 0xf4 then
    match rest with
    | c1 :: c2 :: c3 :: r =>
      0x80 ≤ c1 && c1 ≤ 0x8f && (0x80 ≤ c2 && c2 ≤ 0xbf) && (0x80 ≤ c3 && c3 ≤ 0xbf) && utf8_valid r
    | _ => false
  else false

/-- Rust `Reader::utf8_string` (src/der/reader.rs lines 186-190): note the tag
constant used by `next_assume` is `TAG_OCTET_STRING` (4), not
`TAG_UTF8_STRING` (12); the payload is then UTF-8 validated. -/
def Reader.utf8_string (r : Reader) : RResult (List Nat × Reader) :=
RResult.bind (r.next_assume PC.Primitive TAG_OCTET_STRING) (fun x =>
  RResult.bind (x.2.subslice x.1) (fun y =>
    if utf8_valid y.1 then .ok (y.1, y.2) else .err ReaderError.Utf8Invalid))

/-- Rust `Reader::null` (src/der/reader.rs lines 193-200). -/
def Reader.null (r : Reader) : RResult (Unit × Reader) :=
RResult.bind (r.next_assume PC.Primitive TAG_NULL) (fun x =>
  RResult.bind (x.2.subslice x.1) (fun y =>
    if ¬ y.1.isEmpty then .err ReaderError.NullEncodingInvalid
    else .ok ((), y.2)))

/-- Rust `Reader::done` (src/der/reader.rs lines 228-237). -/
def Reader.done (r : Reader) : Except ReaderError Unit :=
if r.index = r.slice.length then .ok ()
else .error (ReaderError.ReaderNotTerminated r.index r.slice.length)

/-- Writer errors (src/der/writer.rs `Error`). -/
inductive WriterError where
| BufferTooSmall (capacity : Nat)
deriving DecidableEq, Repr

/-- DER writer state (src/der/writer.rs `Writer`): write cursor and the
mutably borrowed buffer. -/
structure Writer where
index : Nat
buf : List Nat
deriving DecidableEq, Repr

/-- Result of a writer operation. The Rust methods mutate `self` in place
and return `Result<(), Error>`; the model returns the mutated state paired
with the returned error, if any, and `none` for a Rust panic (failed
`assert!` or out-of-bounds buffer access). -/
abbrev WResult : Type := Option (Writer × Option WriterError)

/-- Sequencing of writer operations as the Rust `?` operator behaves: a
panic propagates, a returned `Err` stops with the state mutated so far. -/
def wseq (x : WResult) (f : Writer → WResult) : WResult :=
match x with
| none => none
| some (w, some e) => some (w, some e)
| some (w, none) => f w

/-- Overwrite `bytes.length` bytes of `buf` starting at `idx` (the effect
of a Rust write into `buf[idx..idx + bytes.len()]`; callers establish
`idx + bytes.length ≤ buf.length` before using it). -/
def store (buf : List Nat) (idx : Nat) (bytes : List Nat) : List Nat :=
buf.take idx ++ bytes ++ buf.drop (idx + bytes.length)

/-- Rust `Writer::new` (src/der/writer.rs). -/
def Writer.new (buf : List Nat) : Writer :=
⟨0, buf⟩

/-- Rust `Writer::check_length` (src/der/writer.rs lines 20-25). -/
def Writer.check_length (w : Writer) (sz : Nat) : Except WriterError Unit :=
if w.index + sz > w.buf.length then .error (WriterError.BufferTooSmall w.buf.length)
else .ok ()

/-- Rust `Writer::identifier` (src/der/writer.rs lines 27-34): capacity check,
encode at the cursor, `assert_eq!(sz, sz2)` (modelled as a panic when the
encoded byte count differs from `size_bytes`, which also guards the splice
bounds), advance. -/
def Writer.identifier (w : Writer) (ident : Identifier) : WResult :=
let sz := ident.size_bytes
match w.check_length sz with
| .error e => some (w, some e)
| .ok _ =>
  let bytes := ident.encode
  if bytes.length = sz then
    some (⟨w.index + sz, store w.buf w.index bytes⟩, none)
  else none

/-- Rust `Writer::length` (src/der/writer.rs lines 36-42): capacity check for
`size_bytes`, then `length.encode` at the cursor (a `put_length` assert is
a panic; the bounds test reflects the slice write) and advance by `sz`. -/
def Writer.length (w : Writer) (length : Length) : WResult :=
let sz := length.size_bytes
match w.check_length sz with
| .error e => some (w, some e)
| .ok _ =>
  match put_length length with
  | none => none
  | some bytes =>
    if w.index + bytes.length ≤ w.buf.length then
      some (⟨w.index + sz, store w.buf w.index bytes⟩, none)
    else none

/-- Rust `Writer::prim_identifier` (src/der/writer.rs lines 44-51). -/
def Writer.prim_identifier (w : Writer) (tag : Nat) : WResult :=
w.identifier ⟨Class.Universal, PC.Primitive, TagEncoded.new_smallest tag⟩

/-- Rust `Writer::constructed_identifier` (src/der/writer.rs lines 53-60). -/
def Writer.constructed_identifier (w : Writer) (tag : Nat) : WResult :=
w.identifier ⟨Class.Universal, PC.Constructed, TagEncoded.new_smallest tag⟩

/-- Rust `Writer::copy_data` (src/der/writer.rs lines 62-69): write the minimal
length field, check capacity for the payload, copy it, advance. -/
def Writer.copy_data (w : Writer) (data : List Nat) : WResult :=
wseq (w.length (Length.new_smallest data.length)) (fun w1 =>
  match w1.check_length data.length with
  | .error e => some (w1, some e)
  | .ok _ => some (⟨w1.index + data.length, store w1.buf w1.index data⟩, none))

/-- Rust `Writer::bool` (src/der/writer.rs lines 72-76). -/
def Writer.bool (w : Writer) (b : Bool) : WResult :=
wseq (w.prim_identifier TAG_BOOLEAN) (fun w1 =>
  w1.copy_data (if b then [0xff] else [0]))

/-- Rust `Writer::integer` (src/der/writer.rs lines 79-82); the argument is the
validated `Integer` view's byte slice (`integer.as_ref()`). -/
def Writer.integer (w : Writer) (integer : List Nat) : WResult :=
wseq (w.prim_identifier TAG_INTEGER) (fun w1 => w1.copy_data integer)

/-- Rust `Writer::enumerated` (src/der/writer.rs lines 85-88). -/
def Writer.enumerated (w : Writer) (enumerated : List Nat) : WResult :=
wseq (w.prim_identifier TAG_ENUMERATED) (fun w1 => w1.copy_data enumerated)

/-- Rust `Writer::bitstring` (src/der/writer.rs lines 91-94); the argument is
the `BitString` view's byte slice. -/
def Writer.bitstring (w : Writer) (obj : List Nat) : WResult :=
wseq (w.prim_identifier TAG_BIT_STRING) (fun w1 => w1.copy_data obj)

/-- Rust `Writer::octetstring` (src/der/writer.rs lines 97-100). -/
def Writer.octetstring (w : Writer) (obj : List Nat) : WResult :=
wseq (w.prim_identifier TAG_OCTET_STRING) (fun w1 => w1.copy_data obj)

/-- Rust `Writer::null` (src/der/writer.rs lines 103-106). -/
def Writer.null (w : Writer) : WResult :=
wseq (w.prim_identifier TAG_NULL) (fun w1 => w1.copy_data [])

/-- Rust `Writer::utf8_string` (src/der/writer.rs lines 109-113): note the tag
written is `TAG_UTF8_STRING` (12); the argument is `str.as_bytes()`. -/
def Writer.utf8_string (w : Writer) (str : List Nat) : WResult :=
wseq (w.prim_identifier TAG_UTF8_STRING) (fun w1 => w1.copy_data str)

/-- Rust `Writer::sequence` (src/der/writer.rs lines 116-141): emit the
constructed SEQUENCE identifier, reserve one short-form length byte, run
the closure, then backpatch the length; when the nested content length
`diff` is `0x80` or more, the content is shifted forward in place with
`copy_within` (whose bounds test models the Rust panic on a buffer without
the spare bytes) and the long-form length is written. -/
def Writer.sequence (w : Writer) (f : Writer → WResult) : WResult :=
wseq (w.constructed_identifier TAG_SEQUENCE) (fun w1 =>
  let position_length := w1.index
  wseq (w1.length (Length.Short 0)) (fun w2 =>
    let position_data := w2.index
    wseq (f w2) (fun w3 =>
      let diff := w3.index - position_data
      if diff < 0x80 then
        match put_length (Length.Short diff) with
        | none => none
        | some bytes =>
          if position_length + bytes.length ≤ w3.buf.length then
            some (⟨w3.index, store w3.buf position_length bytes⟩, none)
          else none
      else
        let actual_length := Length.new_smallest diff
        let move_forward := actual_length.size_bytes - 1
        let s := w3.buf.drop position_data
        if diff ≤ s.length ∧ move_forward + diff ≤ s.length then
          let s2 := s.take move_forward ++ s.take diff ++ s.drop (move_forward + diff)
          let w4 : Writer := ⟨w3.index + move_forward, w3.buf.take position_data ++ s2⟩
          match put_length actual_length with
          | none => none
          | some bytes =>
            if position_length + bytes.length ≤ w4.buf.length then
              some (⟨w4.index, store w4.buf position_length bytes⟩, none)
            else none
        else none)))

/-- Rust `Writer::finish` (src/der/writer.rs lines 149-151). -/
def Writer.finish (w : Writer) : List Nat :=
w.buf.take w.index

/-- Validity of an `Identifier` in the sense of claim C2: a short tag is
below `0x1f` (it must fit the 5-bit tag field) and a long tag is any `u32`
value. -/
def ValidIdentifier (x : Identifier) : Prop :=
match x.tag with
| TagEncoded.Short t => t < 0x1f
| TagEncoded.Long v => v < 2 ^ 32

/-- Outcome contract of one primitive TLV write (claim C4, amended): the
call either fully succeeds — the cursor advances past the complete TLV
(identifier byte, minimal length field, payload) — or fails with
`BufferTooSmall` of the total capacity; in both cases the committed
prefix `[0, index)` and the buffer length are unchanged, but on failure
the cursor may have advanced past header bytes already written. -/
def WriteOutcome (w : Writer) (r : WResult) (payload : List Nat) : Prop :=
(∃ w2, r = some (w2, none) ∧
  w2.index = w.index + 1 + (Length.new_smallest payload.length).size_bytes + payload.length ∧
  w2.buf.take w.index = w.buf.take w.index ∧ w2.buf.length = w.buf.length) ∨
(∃ w2, r = some (w2, some (WriterError.BufferTooSmall w.buf.length)) ∧
  w2.buf.take w.index = w.buf.take w.index ∧ w2.buf.length = w.buf.length ∧ w.index ≤ w2.index)

/-!
Supporting lemmas.
-/

theorem store_length (buf : List Nat) (idx : Nat) (bytes : List Nat)
    (h : idx + bytes.length ≤ buf.length) : (store buf idx bytes).length = buf.length := by
  simp only [store, List.length_append, List.length_take, List.length_drop]
  omega

theorem store_take_of_le (buf : List Nat) (idx : Nat) (bytes : List Nat) (j : Nat)
    (hj : j ≤ idx) (h : idx ≤ buf.length) : (store buf idx bytes).take j = buf.take j := by
  have h1 : j ≤ (buf.take idx).length := by
    simp only [List.length_take]
    omega
  simp only [store, List.append_assoc]
  rw [List.take_append_of_le_length h1, List.take_take, Nat.min_eq_left hj]

theorem store_take_full (buf : List Nat) (idx : Nat) (bytes : List Nat)
    (h : idx ≤ buf.length) :
    (store buf idx bytes).take (idx + bytes.length) = buf.take idx ++ bytes := by
  have h1 : (buf.take idx ++ bytes).length = idx + bytes.length := by
    simp only [List.length_append, List.length_take]
    omega
  simp only [store]
  exact List.take_left' h1

theorem store_store (buf : List Nat) (idx : Nat) (a b : List Nat)
    (h : idx + a.length + b.length ≤ buf.length) :
    store (store buf idx a) (idx + a.length) b = store buf idx (a ++ b) := by
  have hidx : idx ≤ buf.length := by omega
  have ha : (buf.take idx ++ a).length = idx + a.length := by
    simp only [List.length_append, List.length_take]
    omega
  have h1 : (store buf idx a).take (idx + a.length) = buf.take idx ++ a :=
    store_take_full buf idx a hidx
  have e0 : store buf idx a = (buf.take idx ++ a) ++ buf.drop (idx + a.length) := by
    simp [store, List.append_assoc]
  have h2 : (store buf idx a).drop (idx + a.length + b.length) =
      buf.drop (idx + a.length + b.length) := by
    rw [e0]
    calc ((buf.take idx ++ a) ++ buf.drop (idx + a.length)).drop (idx + a.length + b.length)
        = ((buf.take idx ++ a) ++ buf.drop (idx + a.length)).drop
            ((buf.take idx ++ a).length + b.length) := by rw [ha]
      _ = (buf.drop (idx + a.length)).drop b.length := List.drop_append _
      _ = buf.drop (idx + a.length + b.length) := by
            rw [List.drop_drop]
  have e1 : store (store buf idx a) (idx + a.length) b
      = (store buf idx a).take (idx + a.length) ++ b
        ++ (store buf idx a).drop (idx + a.length + b.length) := rfl
  rw [e1, h1, h2]
  simp only [store, List.length_append, List.append_assoc]
  rw [Nat.add_assoc]

theorem length_value_bytes_length (nb value : Nat) :
    (length_value_bytes nb value).length = nb := by
  simp [length_value_bytes]

theorem length_value_bytes_lt (nb value : Nat) :
    ∀ b ∈ length_value_bytes nb value, b < 256 := by
  intro b hb
  simp only [length_value_bytes, List.mem_append, List.mem_map, List.mem_replicate] at hb
  rcases hb with h | ⟨i, _, h⟩
  · omega
  · have : (value >>> (8 * (min nb 4 - 1 - i))) &&& 0xff ≤ 0xff := Nat.and_le_right
    omega

theorem bit_length_fuel_ge (fuel : Nat) :
    ∀ v k, v ≤ fuel → 2 ^ k ≤ v → k + 1 ≤ bit_length_fuel fuel v := by
  induction fuel with
  | zero =>
    intro v k hf hv
    have : 0 < 2 ^ k := Nat.pos_pow_of_pos k (by norm_num)
    omega
  | succ fuel ih =>
    intro v k hf hv
    have hk : (1 : Nat) ≤ 2 ^ k := Nat.one_le_two_pow
    have hvpos : v ≠ 0 := by omega
    simp only [bit_length_fuel, hvpos, if_false, reduceIte]
    match k with
    | 0 => omega
    | j + 1 =>
      have hj : (1 : Nat) ≤ 2 ^ j := Nat.one_le_two_pow
      have hjj : 2 ^ (j + 1) = 2 ^ j * 2 := by ring
      have hdiv : 2 ^ j ≤ v / 2 := by
        rw [Nat.le_div_iff_mul_le (by norm_num)]
        omega
      have hfd : v / 2 ≤ fuel := by omega
      have := ih (v / 2) j hfd hdiv
      omega

theorem new_smallest_long_form (v : Nat) (hv : 0x80 ≤ v) :
    ∃ nb, Length.new_smallest v = Length.Long nb (v % 2 ^ 32) ∧ 1 ≤ nb ∧ nb ≤ 8 := by
  have hnot : ¬ v < 0x80 := by omega
  have h7 : (2 : Nat) ^ 7 ≤ v := by
    norm_num
    omega
  have h8 : 8 ≤ bit_length_fuel v v := bit_length_fuel_ge v v 7 le_rfl h7
  refine ⟨8 - usize_leading_zeros v / 8, ?_, ?_, ?_⟩
  · simp [Length.new_smallest, hnot, usize_leading_zeros]
  · unfold usize_leading_zeros
    omega
  · omega

theorem put_length_new_smallest (n : Nat) :
    ∃ lb, put_length (Length.new_smallest n) = some lb ∧
      lb.length = (Length.new_smallest n).size_bytes ∧ ∀ b ∈ lb, b < 256 := by
  by_cases hlt : n < 0x80
  · refine ⟨[n], ?_, ?_, ?_⟩
    · simp [Length.new_smallest, hlt, put_length]
    · simp [Length.new_smallest, hlt, Length.size_bytes]
    · intro b hb
      simp only [List.mem_singleton] at hb
      omega
  · obtain ⟨nb, hns, h1, h8⟩ := new_smallest_long_form n (by omega)
    refine ⟨(0x80 ||| nb) :: length_value_bytes nb (n % 2 ^ 32), ?_, ?_, ?_⟩
    · rw [hns]
      simp only [put_length]
      rw [if_pos ⟨by omega, by omega⟩]
    · rw [hns]
      simp only [Length.size_bytes, List.length_cons, length_value_bytes_length]
      omega
    · intro b hb
      simp only [List.mem_cons] at hb
      rcases hb with h | h
      · subst h
        have : (0x80 : Nat) ||| nb < 256 := Nat.or_lt_two_pow (n := 8) (by norm_num) (by omega)
        omega
      · exact length_value_bytes_lt nb (n % 2 ^ 32) b h

theorem byte_lt_128_and_128 (b : Nat) (h : b < 128) : b &&& 128 = 0 := by
  have h7 : (128 : Nat) = 2 ^ 7 := by norm_num
  rw [h7, Nat.and_two_pow, Nat.testBit_eq_false_of_lt (by omega)]
  simp

theorem or_128_and_128 (x : Nat) : (x ||| 128) &&& 128 = 128 := by
  have h7 : (128 : Nat) = 2 ^ 7 := by norm_num
  rw [h7, Nat.and_two_pow, Nat.testBit_or]
  have ht : Nat.testBit (2 ^ 7) 7 = true := by decide
  rw [ht]
  simp

theorem or_128_and_127 (x : Nat) (h : x < 128) : (x ||| 128) &&& 127 = x := by
  rw [Nat.and_comm, Nat.and_or_distrib_left]
  have h1 : (127 : Nat) &&& x = x := by
    rw [Nat.and_comm, Nat.and_pow_two_sub_one_eq_mod x 7]
    norm_num
    omega
  have h2 : (127 : Nat) &&& 128 = 0 := by decide
  rw [h1, h2, Nat.or_zero]

theorem length_acc_loop_some (l : List Nat) :
    ∀ acc, (∀ b ∈ l, b < 256) → ∃ v, length_acc_loop l acc = some v := by
  induction l with
  | nil => exact fun acc _ => ⟨acc, rfl⟩
  | cons b rest ih =>
    intro acc hb
    have hblt : b < 256 := hb b (List.mem_cons_self b rest)
    have hs : (acc <<< 8) % 2 ^ 32 + b < 2 ^ 32 := by
      rw [Nat.shiftLeft_eq]
      have hm : acc * 2 ^ 8 % 2 ^ 32 = acc % 2 ^ 24 * 2 ^ 8 := by
        have h32 : (2 : Nat) ^ 32 = 2 ^ 24 * 2 ^ 8 := by norm_num
        rw [h32, Nat.mul_mod_mul_right]
      rw [hm]
      have : acc % 2 ^ 24 < 2 ^ 24 := Nat.mod_lt _ (by norm_num)
      omega
    have e1 : checked_shl 32 acc 8 = some ((acc <<< 8) % 2 ^ 32) := by
      simp only [checked_shl]
      rw [if_neg (by norm_num)]
    have e2 : checked_add 32 ((acc <<< 8) % 2 ^ 32) b = some ((acc <<< 8) % 2 ^ 32 + b) := by
      simp only [checked_add]
      rw [if_pos hs]
    simp only [length_acc_loop, e1, e2]
    exact ih _ (fun x hx => hb x (List.mem_cons_of_mem b hx))

theorem get_length_after_put (n : Nat) (tail lb : List Nat)
    (hp : put_length (Length.new_smallest n) = some lb) :
    ∃ L, get_length (lb ++ tail) = Except.ok (L, lb.length) := by
  by_cases hlt : n < 0x80
  · have hns : Length.new_smallest n = Length.Short n := by
      simp [Length.new_smallest, hlt]
    rw [hns] at hp
    simp only [put_length] at hp
    rw [if_pos hlt] at hp
    have hlb : lb = [n] := (Option.some.inj hp).symm
    subst hlb
    refine ⟨Length.Short n, ?_⟩
    have hne : n ≠ 0x80 := by omega
    have hand : n &&& 0x80 = 0 := byte_lt_128_and_128 n hlt
    simp [get_length, hne, hand]
  · obtain ⟨nb, hns, h1, h8⟩ := new_smallest_long_form n (by omega)
    rw [hns] at hp
    simp only [put_length] at hp
    rw [if_pos ⟨by omega, by omega⟩] at hp
    have hlb : lb = (0x80 ||| nb) :: length_value_bytes nb (n % 2 ^ 32) :=
      (Option.some.inj hp).symm
    subst hlb
    have hand7 : ((0x80 : Nat) ||| nb) &&& 0x7f = nb := by
      rw [Nat.or_comm]
      exact or_128_and_127 nb (by omega)
    have hne : (0x80 : Nat) ||| nb ≠ 0x80 := by
      intro hcontra
      rw [hcontra] at hand7
      have : (0x80 : Nat) &&& 0x7f = 0 := by decide
      omega
    have hand : ((0x80 : Nat) ||| nb) &&& 0x80 ≠ 0 := by
      have h0 := or_128_and_128 nb
      rw [Nat.or_comm] at h0
      omega
    obtain ⟨acc, hacc⟩ := length_acc_loop_some (length_value_bytes nb (n % 2 ^ 32)) 0
      (length_value_bytes_lt nb (n % 2 ^ 32))
    refine ⟨Length.Long nb acc, ?_⟩
    simp only [List.cons_append, get_length]
    rw [if_neg hne, if_pos hand, hand7]
    have hlen : ¬ (((0x80 ||| nb) :: (length_value_bytes nb (n % 2 ^ 32) ++ tail)).length
        < 1 + nb) := by
      simp only [List.length_cons, List.length_append, length_value_bytes_length]
      omega
    rw [if_neg hlen]
    rw [List.take_left' (length_value_bytes_length nb (n % 2 ^ 32)), hacc]
    simp only [List.length_cons, length_value_bytes_length]
    rw [Nat.add_comm]

theorem identifier_short_write (w : Writer) (cls : Class) (pc : PC) (t : Nat) :
    w.identifier ⟨cls, pc, TagEncoded.Short t⟩ =
      if w.index + 1 > w.buf.length
      then some (w, some (WriterError.BufferTooSmall w.buf.length))
      else some (⟨w.index + 1, store w.buf w.index [encode_first_byte cls pc (TagType.Short t)]⟩, none) := by
  by_cases hc : w.index + 1 > w.buf.length
  · simp [Writer.identifier, Writer.check_length, Identifier.size_bytes, hc]
  · simp [Writer.identifier, Writer.check_length, Identifier.size_bytes, hc, Identifier.encode]

theorem length_write_new_smallest (w : Writer) (n : Nat) (lb : List Nat)
    (hp : put_length (Length.new_smallest n) = some lb)
    (hl : lb.length = (Length.new_smallest n).size_bytes) :
    w.length (Length.new_smallest n) =
      if w.index + lb.length > w.buf.length
      then some (w, some (WriterError.BufferTooSmall w.buf.length))
      else some (⟨w.index + lb.length, store w.buf w.index lb⟩, none) := by
  have hsz : (Length.new_smallest n).size_bytes = lb.length := hl.symm
  by_cases hc : w.index + lb.length > w.buf.length
  · simp only [Writer.length, Writer.check_length, hsz, hp]
    simp [hc]
  · have hle : w.index + lb.length ≤ w.buf.length := by omega
    simp only [Writer.length, Writer.check_length, hsz, hp]
    simp [hc, hle]

theorem prim_write_spec (tag : Nat) (data : List Nat) (w : Writer) (htag : tag < 0x1f) :
    (∃ lb, put_length (Length.new_smallest data.length) = some lb ∧
      w.index + 1 + lb.length + data.length ≤ w.buf.length ∧
      wseq (w.prim_identifier tag) (fun w1 => w1.copy_data data) =
        some (⟨w.index + 1 + lb.length + data.length,
          store w.buf w.index (tag :: (lb ++ data))⟩, none)) ∨
    (∃ w2, wseq (w.prim_identifier tag) (fun w1 => w1.copy_data data) =
        some (w2, some (WriterError.BufferTooSmall w.buf.length)) ∧
      w2.buf.take w.index = w.buf.take w.index ∧ w2.buf.length = w.buf.length ∧
      w.index ≤ w2.index) := by
  obtain ⟨lb, hp, hl, _⟩ := put_length_new_smallest data.length
  have hts : TagEncoded.new_smallest tag = TagEncoded.Short tag := by
    simp only [TagEncoded.new_smallest]
    rw [if_pos (by omega)]
  have hfb : encode_first_byte Class.Universal PC.Primitive (TagType.Short tag) = tag := by
    simp [encode_first_byte]
  have hid : w.prim_identifier tag =
      if w.index + 1 > w.buf.length
      then some (w, some (WriterError.BufferTooSmall w.buf.length))
      else some (⟨w.index + 1, store w.buf w.index [tag]⟩, none) := by
    rw [Writer.prim_identifier, hts, identifier_short_write, hfb]
  by_cases hc1 : w.index + 1 > w.buf.length
  · right
    refine ⟨w, ?_, rfl, rfl, le_rfl⟩
    rw [hid, if_pos hc1]
    rfl
  · have hw1 : wseq (w.prim_identifier tag) (fun w1 => w1.copy_data data) =
        Writer.copy_data ⟨w.index + 1, store w.buf w.index [tag]⟩ data := by
      rw [hid, if_neg hc1]
      rfl
    have hw1len : (store w.buf w.index [tag]).length = w.buf.length :=
      store_length _ _ _ (by simp; omega)
    have hw1take : (store w.buf w.index [tag]).take w.index = w.buf.take w.index :=
      store_take_of_le _ _ _ _ le_rfl (by omega)
    rw [hw1, Writer.copy_data,
      length_write_new_smallest ⟨w.index + 1, store w.buf w.index [tag]⟩ data.length lb hp hl]
    by_cases hc2 : w.index + 1 + lb.length > w.buf.length
    · right
      have hc2' : (⟨w.index + 1, store w.buf w.index [tag]⟩ : Writer).index + lb.length >
          (⟨w.index + 1, store w.buf w.index [tag]⟩ : Writer).buf.length := by
        simp only [hw1len]
        omega
      rw [if_pos hc2']
      refine ⟨⟨w.index + 1, store w.buf w.index [tag]⟩, ?_, hw1take, hw1len,
        by show w.index ≤ w.index + 1; omega⟩
      simp only [wseq, hw1len]
    · have hc2' : ¬ ((⟨w.index + 1, store w.buf w.index [tag]⟩ : Writer).index + lb.length >
          (⟨w.index + 1, store w.buf w.index [tag]⟩ : Writer).buf.length) := by
        simp only [hw1len]
        omega
      rw [if_neg hc2']
      have hst1 : store (store w.buf w.index [tag]) (w.index + 1) lb =
          store w.buf w.index ([tag] ++ lb) := by
        have := store_store w.buf w.index [tag] lb (by simp; omega)
        simpa using this
      simp only [wseq]
      by_cases hc3 : w.index + 1 + lb.length + data.length > w.buf.length
      · right
        have hc3' : (⟨w.index + 1 + lb.length, store (store w.buf w.index [tag]) (w.index + 1) lb⟩
            : Writer).index + data.length >
            (⟨w.index + 1 + lb.length, store (store w.buf w.index [tag]) (w.index + 1) lb⟩
            : Writer).buf.length := by
          simp only [hst1]
          rw [store_length _ _ _ (by simp; omega)]
          omega
        have hw2len : (store (store w.buf w.index [tag]) (w.index + 1) lb).length =
            w.buf.length := by
          rw [hst1, store_length _ _ _ (by simp; omega)]
        have hw2take : (store (store w.buf w.index [tag]) (w.index + 1) lb).take w.index =
            w.buf.take w.index := by
          rw [hst1, store_take_of_le _ _ _ _ le_rfl (by omega)]
        refine ⟨⟨w.index + 1 + lb.length, store (store w.buf w.index [tag]) (w.index + 1) lb⟩,
          ?_, hw2take, hw2len, by show w.index ≤ w.index + 1 + lb.length; omega⟩
        simp only [Writer.check_length]
        rw [if_pos (by simpa only [hw2len] using hc3')]
        simp only [hw2len]
      · left
        refine ⟨lb, hp, by omega, ?_⟩
        simp only [Writer.check_length]
        have hw2len : (store (store w.buf w.index [tag]) (w.index + 1) lb).length =
            w.buf.length := by
          rw [hst1, store_length _ _ _ (by simp; omega)]
        rw [if_neg (by simp only [hw2len]; omega)]
        have hst2 : store (store (store w.buf w.index [tag]) (w.index + 1) lb)
            (w.index + 1 + lb.length) data = store w.buf w.index (tag :: (lb ++ data)) := by
          rw [hst1]
          have h12 : w.index + 1 + lb.length = w.index + ([tag] ++ lb).length := by
            simp
            omega
          rw [h12, store_store w.buf w.index ([tag] ++ lb) data (by simp; omega)]
          simp
        rw [hst2]

theorem prim_write_outcome (tag : Nat) (data : List Nat) (w : Writer) (htag : tag < 0x1f) :
    WriteOutcome w (wseq (w.prim_identifier tag) (fun w1 => w1.copy_data data)) data := by
  rcases prim_write_spec tag data w htag with ⟨lb, hp, hb, heq⟩ | ⟨w2, heq, ht, hlen, hidx⟩
  · left
    obtain ⟨lb', hp', hl', _⟩ := put_length_new_smallest data.length
    have hlb : lb' = lb := by
      rw [hp] at hp'
      exact (Option.some.inj hp').symm
    subst hlb
    refine ⟨_, heq, ?_, ?_, ?_⟩
    · show w.index + 1 + lb'.length + data.length =
        w.index + 1 + (Length.new_smallest data.length).size_bytes + data.length
      rw [← hl']
    · show (store w.buf w.index (tag :: (lb' ++ data))).take w.index = w.buf.take w.index
      exact store_take_of_le _ _ _ _ le_rfl (by omega)
    · show (store w.buf w.index (tag :: (lb' ++ data))).length = w.buf.length
      apply store_length
      simp only [List.length_cons, List.length_append]
      omega
  · exact Or.inr ⟨w2, heq, ht, hlen, hidx⟩

theorem reader_utf8_on_utf8_tag (lb data : List Nat) (L : Length)
    (hL : get_length (lb ++ data) = Except.ok (L, lb.length)) :
    Reader.utf8_string (Reader.new (12 :: (lb ++ data))) =
      .err (ReaderError.ExpectedTag 4 12) := by
  have hd : decode_first_byte 12 = (Class.Universal, PC.Primitive, TagType.Short 12) := by decide
  have hdec : Identifier.decode ((12 :: (lb ++ data)).drop 0) =
      .ok (⟨Class.Universal, PC.Primitive, TagEncoded.Short 12⟩, 1) := by
    simp only [List.drop_zero, Identifier.decode, hd]
  have hlen : Length.decode ((12 :: (lb ++ data)).drop (0 + 1)) = .ok (L, lb.length) := by
    simpa only [Nat.zero_add, List.drop_succ_cons, List.drop_zero, Length.decode] using hL
  have ha : assume ⟨Class.Universal, PC.Primitive, TagEncoded.Short 12⟩ PC.Primitive 4 =
      .error (ReaderError.ExpectedTag 4 12) := by decide
  simp only [Reader.utf8_string, Reader.next_assume, Reader.next, Reader.new, RResult.bind,
    TAG_OCTET_STRING, hdec, hlen, ha]

theorem size_7bit_fuel_spec (fuel : Nat) :
    ∀ v, v ≤ fuel → 1 ≤ size_7bit_fuel fuel v ∧ v < 2 ^ (7 * size_7bit_fuel fuel v) ∧
      (2 ≤ size_7bit_fuel fuel v → 2 ^ (7 * (size_7bit_fuel fuel v - 1)) ≤ v) := by
  induction fuel with
  | zero =>
    intro v hv
    have hv0 : v = 0 := by omega
    subst hv0
    refine ⟨le_rfl, by norm_num, by intro h; simp [size_7bit_fuel] at h⟩
  | succ fuel ih =>
    intro v hv
    by_cases h : v < 0x80
    · simp only [size_7bit_fuel, h, reduceIte]
      refine ⟨le_rfl, by norm_num; omega, by intro h2; omega⟩
    · have hle : v >>> 7 ≤ fuel := by
        rw [Nat.shiftRight_eq_div_pow]
        have : v / 2 ^ 7 < v := Nat.div_lt_self (by omega) (by norm_num)
        omega
      obtain ⟨ih1, ih2, ih3⟩ := ih (v >>> 7) hle
      simp only [size_7bit_fuel, h, reduceIte]
      refine ⟨by omega, ?_, ?_⟩
      · have hdm : v = 2 ^ 7 * (v >>> 7) + v % 2 ^ 7 := by
          rw [Nat.shiftRight_eq_div_pow]
          omega
        have hmod : v % 2 ^ 7 < 2 ^ 7 := Nat.mod_lt _ (by norm_num)
        calc v = 2 ^ 7 * (v >>> 7) + v % 2 ^ 7 := hdm
          _ < 2 ^ 7 * (v >>> 7 + 1) := by omega
          _ ≤ 2 ^ 7 * 2 ^ (7 * size_7bit_fuel fuel (v >>> 7)) := by
              exact Nat.mul_le_mul_left _ (by omega)
          _ = 2 ^ (7 * (1 + size_7bit_fuel fuel (v >>> 7))) := by
              rw [← pow_add]
              congr 1
              ring
      · intro _
        have e : 7 * (1 + size_7bit_fuel fuel (v >>> 7) - 1) =
            7 * size_7bit_fuel fuel (v >>> 7) := by omega
        rw [e]
        by_cases hs1 : size_7bit_fuel fuel (v >>> 7) = 1
        · rw [hs1]
          norm_num
          omega
        · have h2s : 2 ≤ size_7bit_fuel fuel (v >>> 7) := by omega
          have hmin := ih3 h2s
          have hval : (v >>> 7) * 2 ^ 7 ≤ v := by
            rw [Nat.shiftRight_eq_div_pow]
            exact Nat.div_mul_le_self v (2 ^ 7)
          calc 2 ^ (7 * size_7bit_fuel fuel (v >>> 7))
              = 2 ^ (7 * (size_7bit_fuel fuel (v >>> 7) - 1)) * 2 ^ 7 := by
                rw [← pow_add]
                congr 1
                omega
            _ ≤ (v >>> 7) * 2 ^ 7 := Nat.mul_le_mul_right _ hmin
            _ ≤ v := hval

theorem mod_shift_and_127 (x m k : Nat) (h : k + 7 ≤ m) :
    ((x % 2 ^ m) >>> k) &&& 127 = (x >>> k) &&& 127 := by
  have l1 : ∀ y : Nat, y &&& 127 = y % 128 := fun y => Nat.and_pow_two_sub_one_eq_mod y 7
  rw [l1, l1, Nat.shiftRight_eq_div_pow, Nat.shiftRight_eq_div_pow]
  have hm : (2 : Nat) ^ m = 2 ^ k * 2 ^ (m - k) := by
    rw [← pow_add]
    congr 1
    omega
  rw [hm, Nat.mod_mul_right_div_self]
  have hd : (128 : Nat) ∣ 2 ^ (m - k) := by
    have h128 : (128 : Nat) = 2 ^ 7 := by norm_num
    rw [h128]
    exact pow_dvd_pow 2 (by omega)
  rw [Nat.mod_mod_of_dvd _ hd]

theorem encode_tag_bytes_succ (v n : Nat) (hn : 1 ≤ n) :
    encode_tag_bytes v (n + 1) =
      (((v >>> (7 * n)) &&& 0x7f) ||| 0x80) :: encode_tag_bytes (v % 2 ^ (7 * n)) n := by
  unfold encode_tag_bytes
  rw [List.range_succ_eq_map, List.map_cons, List.map_map]
  congr 1
  · show (if (0 : Nat) = n + 1 - 1 then (v >>> (7 * (n + 1 - 1 - 0))) &&& 0x7f
      else ((v >>> (7 * (n + 1 - 1 - 0))) &&& 0x7f) ||| 0x80) = _
    rw [if_neg (by omega)]
    norm_num
  · apply List.map_congr_left
    intro i hi
    simp only [List.mem_range] at hi
    have e1 : n + 1 - 1 - (i + 1) = n - 1 - i := by omega
    have e2 : ((v % 2 ^ (7 * n)) >>> (7 * (n - 1 - i))) &&& 0x7f =
        (v >>> (7 * (n - 1 - i))) &&& 0x7f :=
      mod_shift_and_127 v (7 * n) (7 * (n - 1 - i)) (by omega)
    show (if i + 1 = n + 1 - 1 then (v >>> (7 * (n + 1 - 1 - (i + 1)))) &&& 0x7f
        else ((v >>> (7 * (n + 1 - 1 - (i + 1)))) &&& 0x7f) ||| 0x80) =
      (if i = n - 1 then ((v % 2 ^ (7 * n)) >>> (7 * (n - 1 - i))) &&& 0x7f
        else (((v % 2 ^ (7 * n)) >>> (7 * (n - 1 - i))) &&& 0x7f) ||| 0x80)
    rw [e1, e2]
    exact if_congr (by omega) rfl rfl

theorem get_taglong_loop_encode (n : Nat) :
    ∀ v a rest (first : Bool), v < 2 ^ (7 * (n + 1)) →
      a * 2 ^ (7 * (n + 1)) + v < 2 ^ 32 →
      (first = true → (n = 0 ∨ 2 ^ (7 * n) ≤ v)) →
      get_taglong_loop (encode_tag_bytes v (n + 1) ++ rest) a first =
        .ok (a * 2 ^ (7 * (n + 1)) + v, n + 1) := by
  induction n with
  | zero =>
    intro v a rest first hv hb _
    have h128 : (2 : Nat) ^ (7 * (0 + 1)) = 128 := by norm_num
    have hv128 : v < 128 := by omega
    have he : encode_tag_bytes v 1 = [v] := by
      have hr : List.range 1 = [0] := rfl
      simp only [encode_tag_bytes, hr, List.map_cons, List.map_nil]
      norm_num [Nat.shiftRight_zero]
      exact (Nat.and_pow_two_sub_one_eq_mod v 7).trans (Nat.mod_eq_of_lt hv128)
    rw [he]
    have hand : v &&& 0x80 = 0 := byte_lt_128_and_128 v hv128
    have hs128 : a * 2 ^ 7 < 2 ^ 32 := by
      have : (2 : Nat) ^ 7 = 128 := by norm_num
      omega
    have e1 : checked_shl 32 a 7 = some (a * 2 ^ 7) := by
      simp only [checked_shl]
      rw [if_neg (by norm_num), Nat.shiftLeft_eq, Nat.mod_eq_of_lt hs128]
    have e2 : checked_add 32 (a * 2 ^ 7) v = some (a * 2 ^ 7 + v) := by
      simp only [checked_add]
      rw [if_pos (by
        have h7 : (2 : Nat) ^ 7 = 128 := by norm_num
        omega)]
    simp only [List.cons_append, get_taglong_loop, hand]
    rw [if_neg (by simp)]
    simp only [e1, e2]
  | succ n ih =>
    intro v a rest first hv hb hfirst
    rw [encode_tag_bytes_succ v (n + 1) (by omega)]
    have hp2 : (2 : Nat) ^ (7 * (n + 1 + 1)) = 2 ^ (7 * (n + 1)) * 2 ^ 7 := by
      rw [← pow_add]
      congr 1
    have hglt : v >>> (7 * (n + 1)) < 128 := by
      rw [Nat.shiftRight_eq_div_pow]
      have : v < 2 ^ (7 * (n + 1)) * 2 ^ 7 := by omega
      have h7 : (2 : Nat) ^ 7 = 128 := by norm_num
      rw [← h7]
      exact Nat.div_lt_of_lt_mul this
    have hga : (v >>> (7 * (n + 1))) &&& 0x7f = v >>> (7 * (n + 1)) :=
      (Nat.and_pow_two_sub_one_eq_mod _ 7).trans (Nat.mod_eq_of_lt hglt)
    rw [hga]
    have hor : (v >>> (7 * (n + 1)) ||| 0x80) &&& 0x80 = 0x80 := or_128_and_128 _
    have hcb : (v >>> (7 * (n + 1)) ||| 0x80) &&& 0x7f = v >>> (7 * (n + 1)) :=
      or_128_and_127 _ hglt
    have hppos : (0 : Nat) < 2 ^ (7 * (n + 1)) := Nat.pos_pow_of_pos _ (by norm_num)
    have hfb : (first && (v >>> (7 * (n + 1)) == 0)) = false := by
      cases first
      · simp
      · simp only [Bool.true_and, beq_eq_false_iff_ne, ne_eq]
        rcases hfirst rfl with h0 | hge
        · omega
        · rw [Nat.shiftRight_eq_div_pow]
          have : 1 ≤ v / 2 ^ (7 * (n + 1)) := (Nat.one_le_div_iff hppos).mpr hge
          omega
    have hs128 : a * 2 ^ 7 < 2 ^ 32 := by
      have h1 : a * 2 ^ 7 ≤ a * 2 ^ (7 * (n + 1 + 1)) :=
        Nat.mul_le_mul_left a (Nat.pow_le_pow_right (by norm_num) (by omega))
      omega
    have e1 : checked_shl 32 a 7 = some (a * 2 ^ 7) := by
      simp only [checked_shl]
      rw [if_neg (by norm_num), Nat.shiftLeft_eq, Nat.mod_eq_of_lt hs128]
    have hq : a * 2 ^ 7 + v >>> (7 * (n + 1)) =
        (a * 2 ^ (7 * (n + 1 + 1)) + v) / 2 ^ (7 * (n + 1)) := by
      rw [Nat.shiftRight_eq_div_pow]
      have hsplit : a * 2 ^ (7 * (n + 1 + 1)) = a * 2 ^ 7 * 2 ^ (7 * (n + 1)) := by
        rw [hp2]
        ring
      rw [hsplit, Nat.add_comm (a * 2 ^ 7 * 2 ^ (7 * (n + 1))) v,
        Nat.add_mul_div_right _ _ hppos, Nat.add_comm]
    have hsum : a * 2 ^ 7 + v >>> (7 * (n + 1)) < 2 ^ 32 := by
      rw [hq]
      have := Nat.div_le_self (a * 2 ^ (7 * (n + 1 + 1)) + v) (2 ^ (7 * (n + 1)))
      omega
    have e2 : checked_add 32 (a * 2 ^ 7) (v >>> (7 * (n + 1))) =
        some (a * 2 ^ 7 + v >>> (7 * (n + 1))) := by
      simp only [checked_add]
      rw [if_pos hsum]
    have hval : (a * 2 ^ 7 + v >>> (7 * (n + 1))) * 2 ^ (7 * (n + 1)) + v % 2 ^ (7 * (n + 1)) =
        a * 2 ^ (7 * (n + 1 + 1)) + v := by
      have hdm : 2 ^ (7 * (n + 1)) * (v / 2 ^ (7 * (n + 1))) + v % 2 ^ (7 * (n + 1)) = v :=
        Nat.div_add_mod v (2 ^ (7 * (n + 1)))
      rw [Nat.shiftRight_eq_div_pow]
      calc (a * 2 ^ 7 + v / 2 ^ (7 * (n + 1))) * 2 ^ (7 * (n + 1)) + v % 2 ^ (7 * (n + 1))
          = a * 2 ^ 7 * 2 ^ (7 * (n + 1)) +
            (2 ^ (7 * (n + 1)) * (v / 2 ^ (7 * (n + 1))) + v % 2 ^ (7 * (n + 1))) := by ring
        _ = a * 2 ^ 7 * 2 ^ (7 * (n + 1)) + v := by rw [hdm]
        _ = a * 2 ^ (7 * (n + 1 + 1)) + v := by rw [hp2]; ring
    have ihh := ih (v % 2 ^ (7 * (n + 1))) (a * 2 ^ 7 + v >>> (7 * (n + 1))) rest false
      (Nat.mod_lt _ hppos) (by rw [hval]; exact hb) (by simp)
    simp only [List.cons_append, get_taglong_loop, hor, hcb, hfb]
    rw [if_pos (by norm_num)]
    simp only [Bool.false_eq_true, if_false, List.append_eq, e1, e2, ihh, hval]

theorem decode_encode_first_byte_short (cls : Class) (pc : PC) :
    ∀ t, t < 0x1f →
      decode_first_byte (encode_first_byte cls pc (TagType.Short t)) = (cls, pc, TagType.Short t) := by
  cases cls <;> cases pc <;> decide

theorem decode_encode_first_byte_long (cls : Class) (pc : PC) :
    decode_first_byte (encode_first_byte cls pc TagType.Long) = (cls, pc, TagType.Long) := by
  cases cls <;> cases pc <;> decide

/-- C2: for every valid `Identifier` (any class, any primitive/constructed
flag, short tags 0-30 or long tags up to `u32`, multi-group values
included), decoding the output of `encode` returns exactly the identifier
together with the number of bytes `encode` wrote. -/
theorem identifier_roundtrip (x : Identifier) (hx : ValidIdentifier x) :
    Identifier.decode (Identifier.encode x) = .ok (x, (Identifier.encode x).length) := by
  obtain ⟨cls, pc, tag⟩ := x
  cases tag with
  | Short t =>
    have ht : t < 0x1f := hx
    have he : Identifier.encode ⟨cls, pc, TagEncoded.Short t⟩ =
        [encode_first_byte cls pc (TagType.Short t)] := by
      simp [Identifier.encode]
    rw [he]
    simp only [Identifier.decode, decode_encode_first_byte_short cls pc t ht, List.length_cons,
      List.length_nil]
  | Long v =>
    have hv : v < 2 ^ 32 := hx
    obtain ⟨h1, h2, h3⟩ := size_7bit_fuel_spec v v le_rfl
    have hnb : size_7bit v = size_7bit_fuel v v := rfl
    obtain ⟨n, hn⟩ : ∃ n, size_7bit_fuel v v = n + 1 := ⟨size_7bit_fuel v v - 1, by omega⟩
    have he : Identifier.encode ⟨cls, pc, TagEncoded.Long v⟩ =
        encode_first_byte cls pc TagType.Long :: encode_tag_bytes v (n + 1) := by
      simp only [Identifier.encode, size_7bit, hn]
    rw [he]
    have hloop := get_taglong_loop_encode n v 0 [] true
      (by rw [← hn]; exact h2) (by simpa using hv)
      (by
        intro _
        by_cases hone : size_7bit_fuel v v = 1
        · left; omega
        · right
          have := h3 (by omega)
          rw [hn] at this
          simpa using this)
    rw [List.append_nil] at hloop
    simp only [Identifier.decode, decode_encode_first_byte_long cls pc, get_taglong, hloop]
    simp only [Nat.zero_mul, Nat.zero_add, List.length_cons]
    have hlen : (encode_tag_bytes v (n + 1)).length = n + 1 := by
      simp [encode_tag_bytes]
    rw [hlen]
    have harith : 1 + (n + 1) = n + 1 + 1 := by omega
    rw [harith]

/-- C2 witness: the multi-group tag `0x12482` of the source test suite. -/
theorem identifier_roundtrip_witness :
    ValidIdentifier ⟨Class.Context, PC.Primitive, TagEncoded.Long 0x12482⟩ ∧
    Identifier.decode (Identifier.encode ⟨Class.Context, PC.Primitive, TagEncoded.Long 0x12482⟩) =
      .ok (⟨Class.Context, PC.Primitive, TagEncoded.Long 0x12482⟩,
        (Identifier.encode ⟨Class.Context, PC.Primitive, TagEncoded.Long 0x12482⟩).length) :=
  ⟨by norm_num [ValidIdentifier], identifier_roundtrip
    ⟨Class.Context, PC.Primitive, TagEncoded.Long 0x12482⟩ (by norm_num [ValidIdentifier])⟩

/-- C1: the claim states that malformed or truncated input is rejected by a
returned error, never a panic. The code panics instead: `Reader::next`
calls `.unwrap()` on both header decode results, so a truncated or invalid
TLV header (empty input; a long-form first byte with no tag bytes after it)
is a panic, and `Reader::subslice` carves the payload with an unchecked
index expression, so a declared payload length exceeding the remaining
bytes (octet string header `[0x04, 0x05]` with no payload) is a panic as
well, not the claimed fatal error. -/
theorem reader_malformed_input_panics :
    Reader.next (Reader.new []) = .panic ∧
    Reader.next (Reader.new [0x1f]) = .panic ∧
    Reader.octetstring (Reader.new [0x04, 0x05]) = .panic ∧
    Reader.subslice (Reader.new [0x04, 0x05]) (Length.Short 5) = .panic := by
  exact ⟨by decide, by decide, by decide, by decide⟩

/-- C3: the claim states `TagEncoded::new_smallest(v)` picks the short form
exactly when `v < 0x1f`. The code tests `v < 0x80`: for `v = 0x1f` it
returns `Short 0x1f`, whose encoding is the single byte `0x1f` — the
long-form marker — which is not a valid tag encoding at all (decoding it
fails with `TagEncodingIncomplete`), contradicting both the claimed
threshold and the claimed shortest-valid-encoding property. -/
theorem new_smallest_threshold_is_0x80 :
    TagEncoded.new_smallest 0x1f = TagEncoded.Short 0x1f ∧
    TagEncoded.new_smallest 0x7f = TagEncoded.Short 0x7f ∧
    TagEncoded.new_smallest 0x80 = TagEncoded.Long 0x80 ∧
    Identifier.encode ⟨Class.Universal, PC.Primitive, TagEncoded.new_smallest 0x1f⟩ = [0x1f] ∧
    Identifier.decode [0x1f] = .error DecodeError.TagEncodingIncomplete := by
  refine ⟨by decide, by decide, by decide, by decide, by decide⟩

/-- C5: the claim states a long-form length whose value does not fit in 32
bits decodes to the encoding-overflow error. It does not: `checked_shl`
only fails when the shift amount reaches the bit width, so the high bits of
the `u32` accumulator are silently discarded and the 5-byte encoding of
`2^32` decodes to `Ok(Long { nb_bytes: 5, value: 0 })` instead of
`Err(EncodingOverflow)`. -/
theorem get_length_overflow_not_detected :
    get_length [0x85, 0x01, 0x00, 0x00, 0x00, 0x00] = .ok (Length.Long 5 0, 6) ∧
    get_length [0x85, 0xff, 0xff, 0xff, 0xff, 0xff] = .ok (Length.Long 5 0xffffffff, 6) := by
  exact ⟨by decide, by decide⟩

/-- C6: the claim states `to_uN` returns `None` exactly when the value
exceeds the target type's range. It does not: `checked_shl` only fails when
the shift amount reaches the bit width, so for the validated 8-bit slice
`[0x01, 0x00, 0x00]` (value `65536 > u16::MAX`) `to_u16` returns
`Some(0)`, and for the validated 7-bit slice `[0x82, 0x00]` (value
`256 > u8::MAX`) `to_u8` returns `Some(0)`. -/
theorem to_primitive_overflow_not_detected :
    Integer8Bit.from_slice [0x01, 0x00, 0x00] = .ok [0x01, 0x00, 0x00] ∧
    to_primitive8 16 [0x01, 0x00, 0x00] = some 0 ∧
    IntegerContBit7.parse_from_slice [0x82, 0x00] = .ok ([0x82, 0x00], 2) ∧
    to_primitive7 8 [0x82, 0x00] = some 0 := by
  exact ⟨by decide, by decide, by decide, by decide⟩

/-- C7: canonicality is enforced at parse time: a 7-bit-continuation
component whose first byte is `0x80` is rejected whatever follows it; an
INTEGER payload `[0x00, 0x01]` is rejected as non-canonical; an INTEGER
payload `[0x01]` parses and its numeric extraction (any width, here the
`to_u64` instantiation) yields 1. -/
theorem canonical_rejection :
    (∀ rest : List Nat, IntegerContBit7.parse_from_slice (0x80 :: rest) = .error ()) ∧
    Reader.integer (Reader.new [0x02, 0x02, 0x00, 0x01]) = .err ReaderError.IntegerNotCanonical ∧
    Reader.integer (Reader.new [0x02, 0x01, 0x01]) = .ok ([0x01], ⟨3, [0x02, 0x01, 0x01]⟩) ∧
    to_primitive8 64 [0x01] = some 1 := by
  exact ⟨fun rest => rfl, by decide, by decide, by decide⟩

/-- C8: BIT STRING payload validation: empty payload fails with the empty
error; payload `[0x08]` (8 unused bits) fails with the invalid-start error;
payload `[0x03, 0x08]` succeeds and the resulting bit string holds 5 bits;
payload `[0x03, 0x09]` (low 3 bits of the last byte nonzero) fails with the
invalid-end error. -/
theorem bitstring_validation :
    Reader.bitstring (Reader.new [0x03, 0x00]) = .err ReaderError.BitStringEncodingEmpty ∧
    Reader.bitstring (Reader.new [0x03, 0x01, 0x08]) = .err ReaderError.BitStringEncodingInvalidStart ∧
    Reader.bitstring (Reader.new [0x03, 0x02, 0x03, 0x08]) =
      .ok ([0x03, 0x08], ⟨4, [0x03, 0x02, 0x03, 0x08]⟩) ∧
    BitString.bits [0x03, 0x08] = 5 ∧
    Reader.bitstring (Reader.new [0x03, 0x02, 0x03, 0x09]) = .err ReaderError.BitStringEncodingInvalidEnd := by
  exact ⟨by decide, by decide, by decide, by decide, by decide⟩

/-- C4 (amended): every primitive write operation (bool, integer,
enumerated, bitstring, octetstring, null, utf8_string) either fully
succeeds — with the cursor advanced past the complete TLV — or fails with
`BufferTooSmall` of the buffer capacity; in both cases every byte of the
previously committed prefix `[0, index)` and the buffer length are
unmodified, but on failure the cursor may remain advanced past header
bytes written before the capacity check failed (it is not left
unadvanced, see the counterexample). -/
theorem writer_primitive_write_outcome :
    (∀ w b, WriteOutcome w (Writer.bool w b) (if b then [0xff] else [0])) ∧
    (∀ w data, WriteOutcome w (Writer.integer w data) data) ∧
    (∀ w data, WriteOutcome w (Writer.enumerated w data) data) ∧
    (∀ w data, WriteOutcome w (Writer.bitstring w data) data) ∧
    (∀ w data, WriteOutcome w (Writer.octetstring w data) data) ∧
    (∀ w, WriteOutcome w (Writer.null w) []) ∧
    (∀ w data, WriteOutcome w (Writer.utf8_string w data) data) :=
  ⟨fun w b => prim_write_outcome 1 (if b then [0xff] else [0]) w (by norm_num),
   fun w data => prim_write_outcome 2 data w (by norm_num),
   fun w data => prim_write_outcome 10 data w (by norm_num),
   fun w data => prim_write_outcome 3 data w (by norm_num),
   fun w data => prim_write_outcome 4 data w (by norm_num),
   fun w => prim_write_outcome 5 [] w (by norm_num),
   fun w data => prim_write_outcome 12 data w (by norm_num)⟩

/-- C9: whenever writing a string with `Writer::utf8_string` into a fresh
writer succeeds, reading the produced bytes back with
`Reader::utf8_string` fails with the tag-mismatch error expecting tag 4
(OCTET STRING, the constant the reader uses) but finding tag 12
(UTF8String, the constant the writer emits): the pair never round-trips. -/
theorem utf8_write_read_tag_mismatch (data buf : List Nat) (w1 : Writer)
    (h : Writer.utf8_string (Writer.new buf) data = some (w1, none)) :
    Reader.utf8_string (Reader.new w1.finish) = .err (ReaderError.ExpectedTag 4 12) := by
  rcases prim_write_spec 12 data (Writer.new buf) (by norm_num) with
    ⟨lb, hp, hb, heq⟩ | ⟨w2, heq, _, _, _⟩
  · have heq' : Writer.utf8_string (Writer.new buf) data =
        some (⟨(Writer.new buf).index + 1 + lb.length + data.length,
          store (Writer.new buf).buf (Writer.new buf).index (12 :: (lb ++ data))⟩, none) := heq
    rw [h] at heq'
    have hw1 : w1 = ⟨(Writer.new buf).index + 1 + lb.length + data.length,
        store (Writer.new buf).buf (Writer.new buf).index (12 :: (lb ++ data))⟩ :=
      congrArg Prod.fst (Option.some.inj heq')
    have hb0 : 1 + lb.length + data.length ≤ buf.length := by
      simpa [Writer.new] using hb
    have hb' : (0 : Nat) + (12 :: (lb ++ data)).length ≤ buf.length := by
      simp only [List.length_cons, List.length_append]
      omega
    have hfin : w1.finish = 12 :: (lb ++ data) := by
      rw [hw1]
      show (store buf 0 (12 :: (lb ++ data))).take (0 + 1 + lb.length + data.length) = _
      have hidx : (0 : Nat) + 1 + lb.length + data.length = 0 + (12 :: (lb ++ data)).length := by
        simp only [List.length_cons, List.length_append]
        omega
      rw [hidx, store_take_full buf 0 (12 :: (lb ++ data)) (by omega)]
      simp
    rw [hfin]
    obtain ⟨L, hL⟩ := get_length_after_put data.length data lb hp
    exact reader_utf8_on_utf8_tag lb data L hL
  · have heq' : Writer.utf8_string (Writer.new buf) data =
        some (w2, some (WriterError.BufferTooSmall (Writer.new buf).buf.length)) := heq
    rw [h] at heq'
    exact absurd (congrArg Prod.snd (Option.some.inj heq')) (by simp)

/-- C9 witness at a concrete input. -/
theorem utf8_write_read_tag_mismatch_witness :
    Writer.utf8_string (Writer.new [0, 0, 0, 0]) [0x61] =
      some (⟨3, [0x0c, 1, 0x61, 0]⟩, none) ∧
    Reader.utf8_string (Reader.new (Writer.finish ⟨3, [0x0c, 1, 0x61, 0]⟩)) =
      .err (ReaderError.ExpectedTag 4 12) :=
  ⟨by decide, utf8_write_read_tag_mismatch [0x61] [0, 0, 0, 0] ⟨3, [0x0c, 1, 0x61, 0]⟩ (by decide)⟩

set_option maxRecDepth 100000 in
theorem concrete_backpatch_panic :
    Writer.sequence (Writer.new (List.replicate 0x82 0))
      (fun w => w.octetstring (List.replicate 0x7e 2)) = none := by decide

/-- C10: the length-backpatch path of `Writer::sequence` for nested content
of `0x80` bytes or more performs no capacity check: once the header writes
and the closure have succeeded, that path can only panic (out-of-bounds
`copy_within`, modelled by `none`) or succeed — it never returns a
`BufferTooSmall` error. On a buffer lacking the spare bytes for the
in-place forward shift the operation is a panic instead of an error, as
the second conjunct shows on a buffer that fits the content exactly but
has no spare byte for the grown length field. -/
theorem sequence_backpatch_unchecked :
    (∀ (w : Writer) (f : Writer → WResult) (w1 w2 w3 : Writer),
      Writer.constructed_identifier w TAG_SEQUENCE = some (w1, none) →
      Writer.length w1 (Length.Short 0) = some (w2, none) →
      f w2 = some (w3, none) →
      0x80 ≤ w3.index - w2.index →
      Writer.sequence w f = none ∨ ∃ w4, Writer.sequence w f = some (w4, none)) ∧
    Writer.sequence (Writer.new (List.replicate 0x82 0))
      (fun w => w.octetstring (List.replicate 0x7e 2)) = none := by
  have hconc : Writer.sequence (Writer.new (List.replicate 0x82 0))
      (fun w => w.octetstring (List.replicate 0x7e 2)) = none := concrete_backpatch_panic
  constructor
  · intro w f w1 w2 w3 h1 h2 h3 h4
    simp only [Writer.sequence, wseq, h1, h2, h3]
    rw [if_neg (by omega)]
    split
    · split
      · exact Or.inl rfl
      · split
        · exact Or.inr ⟨_, rfl⟩
        · exact Or.inl rfl
    · exact Or.inl rfl
  · exact hconc

set_option maxRecDepth 100000 in
/-- C10 witness: the general statement applied at the concrete buffer of
`0x82` zero bytes with a closure writing a 126-byte octet string (nested
content `0x80` bytes), discharging every hypothesis by computation. -/
theorem sequence_backpatch_unchecked_witness :
    Writer.constructed_identifier (Writer.new (List.replicate 0x82 0)) TAG_SEQUENCE =
      some (⟨1, 0x30 :: List.replicate 0x81 0⟩, none) ∧
    Writer.length ⟨1, 0x30 :: List.replicate 0x81 0⟩ (Length.Short 0) =
      some (⟨2, 0x30 :: 0 :: List.replicate 0x80 0⟩, none) ∧
    (fun w => Writer.octetstring w (List.replicate 0x7e 2)) ⟨2, 0x30 :: 0 :: List.replicate 0x80 0⟩ =
      some (⟨0x82, 0x30 :: 0 :: 4 :: 0x7e :: List.replicate 0x7e 2⟩, none) ∧
    0x80 ≤ 0x82 - 2 ∧
    (Writer.sequence (Writer.new (List.replicate 0x82 0))
        (fun w => w.octetstring (List.replicate 0x7e 2)) = none ∨
      ∃ w4, Writer.sequence (Writer.new (List.replicate 0x82 0))
        (fun w => w.octetstring (List.replicate 0x7e 2)) = some (w4, none)) :=
  ⟨by decide, by decide, by decide, by decide,
    sequence_backpatch_unchecked.1 (Writer.new (List.replicate 0x82 0))
      (fun w => w.octetstring (List.replicate 0x7e 2))
      ⟨1, 0x30 :: List.replicate 0x81 0⟩ ⟨2, 0x30 :: 0 :: List.replicate 0x80 0⟩
      ⟨0x82, 0x30 :: 0 :: 4 :: 0x7e :: List.replicate 0x7e 2⟩
      (by decide) (by decide) (by decide) (by decide)⟩

/-- C4 counterexample: the claim states a failed primitive write leaves the
index unadvanced. Writing a boolean into a 2-byte buffer fails with
`BufferTooSmall(2)` after having written the identifier and length bytes,
with the index advanced from 0 to 2. -/
theorem writer_bool_error_advances_index :
    Writer.bool (Writer.new [0, 0]) true =
      some (⟨2, [1, 1]⟩, some (WriterError.BufferTooSmall 2)) ∧ (2 : Nat) ≠ 0 := by
  exact ⟨by decide, by decide⟩

end Basn1
